import Mathlib

/-!
Shallow embedding of the Sparkify data-lake ETL (`etl.py`) and proofs about it.

Conventions of the embedding:
* A Spark DataFrame is a `List` of rows (records); nullable columns are `Option`s.
* Timestamps (`TimestampType`) are represented by their instant, as integer
  milliseconds since the Unix epoch; `datetime.fromtimestamp(int(x)/1000.0)`
  preserves the instant exactly, so `get_timestamp` is the identity on this
  representation.
* Calendar field extractors (`hour`, `dayofmonth`, `weekofyear`, `month`,
  `year`, `dayofweek`) render an instant in the ambient (session/local)
  timezone, which we pass explicitly as an offset from UTC in minutes (`tz`).
  Python's `datetime.fromtimestamp` likewise uses the process-local timezone
  for its calendar fields.
* `dropDuplicates(key)` is embedded as keyed deduplication keeping the first
  occurrence of each key, the deterministic sequential semantics.  (The source
  passes the column name as a bare string where the PySpark API expects a
  list; the evident and spec-documented intent is dedup by that one column.)
* Writing a parquet dataset is embedded as a `WriteOp` applied to an abstract
  `Store` mapping paths to tables; `mode="overwrite"` replaces whatever was at
  the path.
-/

namespace Sparkify

/-- SongRecord: one record of the song catalog, per the explicit read schema
(lines 39-50 of `etl.py`).  All fields are nullable. -/
structure SongRecord where
  artist_id : Option String
  artist_latitude : Option Rat
  artist_location : Option String
  artist_longitude : Option Rat
  artist_name : Option String
  duration : Option Rat
  num_songs : Option Int
  song_id : Option String
  title : Option String
  year : Option Int
deriving DecidableEq, Repr

/-- LogEvent: one record of the event log (schema inferred on read).  `ts` is
epoch milliseconds and must be present (the timestamp udf applies `int` to
it). -/
structure LogEvent where
  ts : Int
  page : Option String
  userId : Option String
  firstName : Option String
  lastName : Option String
  gender : Option String
  level : Option String
  song : Option String
  artist : Option String
  sessionId : Option Int
  location : Option String
  userAgent : Option String
deriving DecidableEq, Repr

/-! ### Keyed deduplication (Spark `dropDuplicates`) -/

/-- dedupByAux key seen l drops every element of `l` whose key is in `seen`
or equals the key of an earlier kept element. -/
def dedupByAux {α κ : Type} [DecidableEq κ] (key : α → κ) : List κ → List α → List α
  | _, [] => []
  | seen, x :: xs =>
    if key x ∈ seen then dedupByAux key seen xs
    else x :: dedupByAux key (key x :: seen) xs

/-- dropDuplicatesBy key l keeps, for each key value, the first row of `l`
with that key (embedding of `DataFrame.dropDuplicates([key])`). -/
def dropDuplicatesBy {α κ : Type} [DecidableEq κ] (key : α → κ) (l : List α) : List α :=
  dedupByAux key [] l

/-! ### Calendar arithmetic (timezone-aware rendering of an instant) -/

/-- civilFromDays converts a count of days since 1970-01-01 to a proleptic
Gregorian (year, month, day) triple. -/
def civilFromDays (z0 : Int) : Int × Int × Int :=
  let z := z0 + 719468
  let era : Int := z.fdiv 146097
  let doe : Int := z.fmod 146097
  let yoe : Int := (doe - doe.fdiv 1460 + doe.fdiv 36524 - doe.fdiv 146096).fdiv 365
  let y : Int := yoe + era * 400
  let doy : Int := doe - (365 * yoe + yoe.fdiv 4 - yoe.fdiv 100)
  let mp : Int := (5 * doy + 2).fdiv 153
  let d : Int := doy - (153 * mp + 2).fdiv 5 + 1
  let m : Int := if mp < 10 then mp + 3 else mp - 9
  (y + (if m ≤ 2 then 1 else 0), m, d)

/-- daysFromCivil is the inverse of `civilFromDays`. -/
def daysFromCivil (y m d : Int) : Int :=
  let y2 := y - (if m ≤ 2 then 1 else 0)
  let era := y2.fdiv 400
  let yoe := y2.fmod 400
  let mp := (m + 9).fmod 12
  let doy := (153 * mp + 2).fdiv 5 + d - 1
  let doe := yoe * 365 + yoe.fdiv 4 - yoe.fdiv 100 + doy
  era * 146097 + doe - 719468

/-- localSeconds tz t shifts an instant (epoch millis) into the timezone at
offset `tz` minutes and truncates to whole seconds. -/
def localSeconds (tz t : Int) : Int := t.fdiv 1000 + tz * 60

/-- epochDay tz t is the local calendar day of instant `t`, as days since the
epoch. -/
def epochDay (tz t : Int) : Int := (localSeconds tz t).fdiv 86400

/-- localCivil tz t is the local (year, month, day) of instant `t`. -/
def localCivil (tz t : Int) : Int × Int × Int := civilFromDays (epochDay tz t)

/-- yearOf embeds Spark's `year()` at session timezone offset `tz`. -/
def yearOf (tz t : Int) : Int := (localCivil tz t).1

/-- monthOf embeds Spark's `month()`. -/
def monthOf (tz t : Int) : Int := (localCivil tz t).2.1

/-- dayOf embeds Spark's `dayofmonth()`. -/
def dayOf (tz t : Int) : Int := (localCivil tz t).2.2

/-- hourOf embeds Spark's `hour()`. -/
def hourOf (tz t : Int) : Int := ((localSeconds tz t).fmod 86400).fdiv 3600

/-- dayofweekOf embeds Spark's `dayofweek()` (1 = Sunday, ..., 7 = Saturday;
1970-01-01 was a Thursday). -/
def dayofweekOf (tz t : Int) : Int := ((epochDay tz t + 4).fmod 7) + 1

/-- isoWeekday days is the ISO weekday (1 = Monday, ..., 7 = Sunday) of an
epoch day count. -/
def isoWeekday (days : Int) : Int := ((days + 3).fmod 7) + 1

/-- isLeap decides Gregorian leap years. -/
def isLeap (y : Int) : Bool := (y.fmod 4 == 0 && y.fmod 100 != 0) || y.fmod 400 == 0

/-- isoWeeksInYear y is 52 or 53 per the ISO-8601 week calendar. -/
def isoWeeksInYear (y : Int) : Int :=
  let jan1wd := isoWeekday (daysFromCivil y 1 1)
  if jan1wd == 4 || (isLeap y && jan1wd == 3) then 53 else 52

/-- weekOf embeds Spark's `weekofyear()` (ISO-8601 week number). -/
def weekOf (tz t : Int) : Int :=
  let days := epochDay tz t
  let c := civilFromDays days
  let ord := days - daysFromCivil c.1 1 1 + 1
  let wd := isoWeekday days
  let w := (ord - wd + 10).fdiv 7
  if w < 1 then isoWeeksInYear (c.1 - 1)
  else if w > isoWeeksInYear c.1 then 1
  else w

/-! ### Timestamp udfs (lines 109-118 of `etl.py`) -/

/-- get_timestamp embeds `udf(lambda x: datetime.fromtimestamp(int(x)/1000.0),
TimestampType())`: epoch millis to the timestamp at epoch second `x / 1000.0`.
Timestamps are represented by epoch millis, so the conversion is the identity
on the representation. -/
def get_timestamp (x : Int) : Int := x

/-- get_datetime embeds `udf(lambda x: datetime.fromtimestamp(int(x)/1000.0),
DateType())`: the date (local epoch day) of the instant.  Defined in the
source (lines 115-116) but never applied: line 118 uses `get_timestamp`. -/
def get_datetime (tz x : Int) : Int := epochDay tz x

/-! ### Output rows -/

/-- SongRow: one row of the `songs` dimension (line 56-61). -/
structure SongRow where
  song_id : Option String
  title : Option String
  artist_id : Option String
  duration : Option Rat
  year : Option Int
deriving DecidableEq, Repr

/-- ArtistRow: one row of the `artists` dimension (lines 69-75). -/
structure ArtistRow where
  artist_id : Option String
  name : Option String
  location : Option String
  latitude : Option Rat
  longitude : Option Rat
deriving DecidableEq, Repr

/-- UserRow: one row of the `users` dimension (lines 98-104). -/
structure UserRow where
  user_id : Option String
  first_name : Option String
  last_name : Option String
  gender : Option String
  level : Option String
deriving DecidableEq, Repr

/-- TimeRow: one row of the `time` dimension as actually selected
(lines 121-130): the three carried-over columns `ts`, `datetime`, `timestamp`
plus the derived calendar columns and `start_time`. -/
structure TimeRow where
  ts : Int
  datetime : Int
  timestamp : Int
  hour : Int
  day : Int
  week : Int
  month : Int
  year : Int
  weekday : Int
  start_time : Int
deriving DecidableEq, Repr

/-- SongplayBase: the songplays columns selected at lines 143-150, before the
surrogate key and partition columns are added. -/
structure SongplayBase where
  start_time : Int
  user_id : Option String
  level : Option String
  song_id : Option String
  artist_id : Option String
  session_id : Option Int
  location : Option String
  user_agent : Option String
deriving DecidableEq, Repr

/-- SongplayRow: a songplays fact row after `songplay_id`, `month` and `year`
are added (lines 152-156). -/
structure SongplayRow extends SongplayBase where
  songplay_id : Nat
  month : Int
  year : Int
deriving DecidableEq, Repr

/-! ### Song pipeline (`process_song_data`) -/

/-- songRowOf projects a catalog record onto the `songs` columns (line 56-61). -/
def songRowOf (r : SongRecord) : SongRow :=
  { song_id := r.song_id, title := r.title, artist_id := r.artist_id,
    duration := r.duration, year := r.year }

/-- songs_table embeds lines 56-61: project then `dropDuplicates` by
`song_id`. -/
def songs_table (records : List SongRecord) : List SongRow :=
  dropDuplicatesBy (fun row => row.song_id) (records.map songRowOf)

/-- artistRowOf projects a catalog record onto the `artists` columns
(lines 69-75). -/
def artistRowOf (r : SongRecord) : ArtistRow :=
  { artist_id := r.artist_id, name := r.artist_name, location := r.artist_location,
    latitude := r.artist_latitude, longitude := r.artist_longitude }

/-- artists_table embeds lines 69-75: project then `dropDuplicates` by
`artist_id`. -/
def artists_table (records : List SongRecord) : List ArtistRow :=
  dropDuplicatesBy (fun row => row.artist_id) (records.map artistRowOf)

/-! ### Log pipeline (`process_log_data`) -/

/-- filterNextSong embeds line 95: `log_data_df.filter(log_data_df.page ==
'NextSong')`.  A null `page` compares unequal, per SQL semantics. -/
def filterNextSong (events : List LogEvent) : List LogEvent :=
  events.filter (fun e => e.page == some "NextSong")

/-- userRowOf projects a log event onto the `users` columns (lines 98-103). -/
def userRowOf (e : LogEvent) : UserRow :=
  { user_id := e.userId, first_name := e.firstName, last_name := e.lastName,
    gender := e.gender, level := e.level }

/-- users_table embeds lines 98-104.  Note the projection runs on
`log_data_df` AFTER the line-95 filter reassigned it, so only NextSong events
feed the users table. -/
def users_table (events : List LogEvent) : List UserRow :=
  dropDuplicatesBy (fun row => row.user_id) ((filterNextSong events).map userRowOf)

/-- timeRowOf builds one row of the time table from a (filtered) log event
(lines 111-129).  The `datetime` column is assigned with `get_timestamp`
(line 118), not `get_datetime`. -/
def timeRowOf (tz : Int) (e : LogEvent) : TimeRow :=
  { ts := e.ts
    datetime := get_timestamp e.ts
    timestamp := get_timestamp e.ts
    hour := hourOf tz (get_timestamp e.ts)
    day := dayOf tz (get_timestamp e.ts)
    week := weekOf tz (get_timestamp e.ts)
    month := monthOf tz (get_timestamp e.ts)
    year := yearOf tz (get_timestamp e.ts)
    weekday := dayofweekOf tz (get_timestamp e.ts)
    start_time := get_timestamp e.ts }

/-- time_table embeds lines 121-130: derived columns then `dropDuplicates`
by `start_time`. -/
def time_table (tz : Int) (events : List LogEvent) : List TimeRow :=
  dropDuplicatesBy (fun row => row.start_time) ((filterNextSong events).map (timeRowOf tz))

/-- optEq is SQL equality on nullable strings: null never compares equal. -/
def optEq (a b : Option String) : Bool :=
  match a, b with
  | some x, some y => x == y
  | _, _ => false

/-- matchesSong is the join predicate of lines 140-141:
`(log.song == song.title) & (log.artist == song.artist_name)`. -/
def matchesSong (e : LogEvent) (r : SongRecord) : Bool :=
  optEq e.song r.title && optEq e.artist r.artist_name

/-- leftJoinSongs embeds the `"left"` join of lines 139-142: each log event is
paired with every matching catalog record, or with `none` when no record
matches. -/
def leftJoinSongs (events : List LogEvent) (catalog : List SongRecord) :
    List (LogEvent × Option SongRecord) :=
  events.flatMap (fun e =>
    let ms := catalog.filter (matchesSong e)
    if ms.isEmpty then [(e, none)] else ms.map (fun r => (e, some r)))

/-- songplayBase projects a joined pair onto the songplays columns
(lines 143-150); an unmatched pair leaves `song_id`/`artist_id` null. -/
def songplayBase (p : LogEvent × Option SongRecord) : SongplayBase :=
  { start_time := get_timestamp p.1.ts
    user_id := p.1.userId
    level := p.1.level
    song_id := p.2.bind (fun r => r.song_id)
    artist_id := p.2.bind (fun r => r.artist_id)
    session_id := p.1.sessionId
    location := p.1.location
    user_agent := p.1.userAgent }

/-- spLE orders songplay base rows by `start_time` (the window spec of
line 152). -/
def spLE (a b : SongplayBase) : Prop := a.start_time ≤ b.start_time

instance : DecidableRel spLE := fun a b => Int.decLe a.start_time b.start_time

instance : IsTotal SongplayBase spLE := ⟨fun a b => Int.le_total a.start_time b.start_time⟩

instance : IsTrans SongplayBase spLE := ⟨fun _ _ _ h1 h2 => Int.le_trans h1 h2⟩

/-- withIds n rows assigns `row_number` values n, n+1, ... over an ordered row
list, and the `month`/`year` partition columns (lines 153-156). -/
def withIds (tz : Int) : Nat → List SongplayBase → List SongplayRow
  | _, [] => []
  | n, b :: bs =>
    { toSongplayBase := b, songplay_id := n,
      month := monthOf tz b.start_time, year := yearOf tz b.start_time }
      :: withIds tz (n + 1) bs

/-- songplays_table embeds lines 139-156: left join, project, then
`row_number().over(Window.orderBy(start_time))` starting at 1, plus the
`month`/`year` columns. -/
def songplays_table (tz : Int) (events : List LogEvent) (catalog : List SongRecord) :
    List SongplayRow :=
  withIds tz 1
    (List.insertionSort spLE ((leftJoinSongs (filterNextSong events) catalog).map songplayBase))

/-! ### Output writer -/

/-- Table is the sum of the five output tables. -/
inductive Table where
  | songsT : List SongRow → Table
  | artistsT : List ArtistRow → Table
  | usersT : List UserRow → Table
  | timeT : List TimeRow → Table
  | songplaysT : List SongplayRow → Table
deriving DecidableEq

/-- WriteOp records one `.write...parquet(path, mode=...)` call: destination
path, `partitionBy` columns, write mode, and the table written. -/
structure WriteOp where
  path : String
  partitionColumns : List String
  mode : String
  table : Table
deriving DecidableEq

/-- Store is the state of the destination: a map from paths to datasets. -/
def Store : Type := String → Option Table

/-- appendTables models non-overwrite (append) mode: same-shaped datasets are
concatenated, anything else is replaced. -/
def appendTables (old : Option Table) (new : Table) : Table :=
  match old, new with
  | some (Table.songsT a), Table.songsT b => Table.songsT (a ++ b)
  | some (Table.artistsT a), Table.artistsT b => Table.artistsT (a ++ b)
  | some (Table.usersT a), Table.usersT b => Table.usersT (a ++ b)
  | some (Table.timeT a), Table.timeT b => Table.timeT (a ++ b)
  | some (Table.songplaysT a), Table.songplaysT b => Table.songplaysT (a ++ b)
  | _, _ => new

/-- applyWrite applies one write to the store: overwrite mode replaces the
dataset at the path, any other mode appends to it. -/
def applyWrite (s : Store) (w : WriteOp) : Store := fun p =>
  if p = w.path then
    if w.mode = "overwrite" then some w.table else some (appendTables (s p) w.table)
  else s p

/-- applyWrites applies a list of writes in order. -/
def applyWrites (s : Store) : List WriteOp → Store
  | [] => s
  | w :: ws => applyWrites (applyWrite s w) ws

/-- process_song_data embeds lines 29-79: build and write `songs` (partitioned
by year, artist_id) and `artists`, both in overwrite mode. -/
def process_song_data (output_data : String) (records : List SongRecord) : List WriteOp :=
  [ { path := output_data ++ "songs.parquet",
      partitionColumns := ["year", "artist_id"],
      mode := "overwrite",
      table := Table.songsT (songs_table records) },
    { path := output_data ++ "artists.parquet",
      partitionColumns := [],
      mode := "overwrite",
      table := Table.artistsT (artists_table records) } ]

/-- process_log_data embeds lines 82-161: build and write `users`, `time`
(partitioned by year, month) and `songplays` (partitioned by year, month),
all in overwrite mode.  The catalog is re-read from the same song-data input
(lines 136-137). -/
def process_log_data (tz : Int) (output_data : String)
    (events : List LogEvent) (catalog : List SongRecord) : List WriteOp :=
  [ { path := output_data ++ "users.parquet",
      partitionColumns := [],
      mode := "overwrite",
      table := Table.usersT (users_table events) },
    { path := output_data ++ "time.parquet",
      partitionColumns := ["year", "month"],
      mode := "overwrite",
      table := Table.timeT (time_table tz events) },
    { path := output_data ++ "songplays.parquet",
      partitionColumns := ["year", "month"],
      mode := "overwrite",
      table := Table.songplaysT (songplays_table tz events catalog) } ]

/-- etlWrites is the full list of writes performed by `main` (lines 164-177):
the song pipeline then the log pipeline, against the same inputs and the same
destination root. -/
def etlWrites (tz : Int) (output_data : String)
    (records : List SongRecord) (events : List LogEvent) : List WriteOp :=
  process_song_data output_data records ++ process_log_data tz output_data events records

/-- run_etl runs the whole ETL against a destination store. -/
def run_etl (tz : Int) (output_data : String)
    (records : List SongRecord) (events : List LogEvent) (s : Store) : Store :=
  applyWrites s (etlWrites tz output_data records events)

/-! ### Concrete example inputs -/

/-- ceEvent is a NextSong event matching the test catalog record of §8 of the
spec. -/
def ceEvent : LogEvent :=
  { ts := 1541106106796, page := some "NextSong", userId := some "u1",
    firstName := some "F", lastName := some "L", gender := some "M",
    level := some "free", song := some "Test Song", artist := some "Test Artist",
    sessionId := some 1, location := some "X", userAgent := some "ua" }

/-- ceEventB is a second NextSong event with a later timestamp and no song or
artist fields. -/
def ceEventB : LogEvent :=
  { ts := 1541106200000, page := some "NextSong", userId := some "u2",
    firstName := some "G", lastName := some "M", gender := some "F",
    level := some "paid", song := none, artist := none,
    sessionId := some 2, location := some "Y", userAgent := some "ub" }

/-- ceHomeEvent is an event of a user whose only action is a `Home` page
visit. -/
def ceHomeEvent : LogEvent :=
  { ts := 1541106106796, page := some "Home", userId := some "u1",
    firstName := some "F", lastName := some "L", gender := some "M",
    level := some "free", song := none, artist := none,
    sessionId := some 1, location := some "X", userAgent := some "ua" }

/-- ceRec1 is the catalog record `title="Test Song", artist_name="Test
Artist", song_id="S1", artist_id="A1"` of §8 of the spec. -/
def ceRec1 : SongRecord :=
  { artist_id := some "A1", artist_latitude := none, artist_location := none,
    artist_longitude := none, artist_name := some "Test Artist",
    duration := some 100, num_songs := some 1, song_id := some "S1",
    title := some "Test Song", year := some 2018 }

/-- ceRec2 is a second catalog record with the same title and artist name as
`ceRec1` but different ids. -/
def ceRec2 : SongRecord :=
  { ceRec1 with song_id := some "S2", artist_id := some "A2" }

/-- ceDupRec shares `song_id` and `artist_id` with `ceRec1` but differs in
every other attribute. -/
def ceDupRec : SongRecord :=
  { artist_id := some "A1", artist_latitude := some 1, artist_location := some "Z",
    artist_longitude := some 2, artist_name := some "Other Artist",
    duration := some 200, num_songs := some 1, song_id := some "S1",
    title := some "Other Song", year := some 2017 }

/-- ceTimeRow is the time-table row produced from `ceEvent` at UTC. -/
def ceTimeRow : TimeRow :=
  { ts := 1541106106796, datetime := 1541106106796, timestamp := 1541106106796,
    hour := 21, day := 1, week := 44, month := 11, year := 2018, weekday := 5,
    start_time := 1541106106796 }

/-- ceWriteOp is the songs write of an ETL run with empty inputs against the
destination root `""`. -/
def ceWriteOp : WriteOp :=
  { path := "" ++ "songs.parquet", partitionColumns := ["year", "artist_id"],
    mode := "overwrite", table := Table.songsT (songs_table []) }

/-! ## Theorems -/

/-! ### Deduplication lemmas -/

theorem mem_of_mem_dedupByAux {α κ : Type} [DecidableEq κ] (key : α → κ) :
    ∀ (seen : List κ) (l : List α) (y : α), y ∈ dedupByAux key seen l → y ∈ l := by
  intro seen l
  induction l generalizing seen with
  | nil => intro y h; exact absurd h (List.not_mem_nil y)
  | cons x xs ih =>
    intro y h
    simp only [dedupByAux] at h
    by_cases hx : key x ∈ seen
    · rw [if_pos hx] at h
      exact List.mem_cons_of_mem x (ih seen y h)
    · rw [if_neg hx] at h
      rcases List.mem_cons.mp h with h1 | h2
      · exact h1 ▸ List.mem_cons_self x xs
      · exact List.mem_cons_of_mem x (ih (key x :: seen) y h2)

theorem key_not_mem_seen_of_mem_dedupByAux {α κ : Type} [DecidableEq κ] (key : α → κ) :
    ∀ (seen : List κ) (l : List α) (y : α), y ∈ dedupByAux key seen l → key y ∉ seen := by
  intro seen l
  induction l generalizing seen with
  | nil => intro y h; exact absurd h (List.not_mem_nil y)
  | cons x xs ih =>
    intro y h
    simp only [dedupByAux] at h
    by_cases hx : key x ∈ seen
    · rw [if_pos hx] at h
      exact ih seen y h
    · rw [if_neg hx] at h
      rcases List.mem_cons.mp h with h1 | h2
      · exact h1 ▸ hx
      · intro hc
        exact ih (key x :: seen) y h2 (List.mem_cons_of_mem _ hc)

theorem keys_nodup_dedupByAux {α κ : Type} [DecidableEq κ] (key : α → κ) :
    ∀ (seen : List κ) (l : List α), ((dedupByAux key seen l).map key).Nodup := by
  intro seen l
  induction l generalizing seen with
  | nil => simp [dedupByAux]
  | cons x xs ih =>
    simp only [dedupByAux]
    by_cases hx : key x ∈ seen
    · rw [if_pos hx]; exact ih seen
    · rw [if_neg hx]
      simp only [List.map_cons, List.nodup_cons]
      refine ⟨?_, ih (key x :: seen)⟩
      intro hc
      rcases List.mem_map.mp hc with ⟨y, hy, hky⟩
      exact key_not_mem_seen_of_mem_dedupByAux key _ _ y hy
        (hky ▸ List.mem_cons_self (key x) seen)

theorem key_mem_dedupByAux_of_mem {α κ : Type} [DecidableEq κ] (key : α → κ) :
    ∀ (seen : List κ) (l : List α) (k : κ), k ∈ l.map key →
      k ∈ seen ∨ k ∈ (dedupByAux key seen l).map key := by
  intro seen l
  induction l generalizing seen with
  | nil => intro k h; simp at h
  | cons x xs ih =>
    intro k h
    simp only [dedupByAux]
    rcases List.mem_map.mp h with ⟨y, hy, hky⟩
    by_cases hx : key x ∈ seen
    · rw [if_pos hx]
      rcases List.mem_cons.mp hy with h1 | h2
      · exact Or.inl (by rw [← hky, h1]; exact hx)
      · exact ih seen k (List.mem_map.mpr ⟨y, h2, hky⟩)
    · rw [if_neg hx]
      have hxhead : key x ∈ List.map key (x :: dedupByAux key (key x :: seen) xs) :=
        List.mem_map.mpr ⟨x, List.mem_cons_self _ _, rfl⟩
      rcases List.mem_cons.mp hy with h1 | h2
      · exact Or.inr (by rw [← hky, h1]; exact hxhead)
      · rcases ih (key x :: seen) k (List.mem_map.mpr ⟨y, h2, hky⟩) with hs | hd
        · rcases List.mem_cons.mp hs with h3 | h4
          · exact Or.inr (by rw [h3]; exact hxhead)
          · exact Or.inl h4
        · refine Or.inr (List.mem_map.mpr ?_)
          rcases List.mem_map.mp hd with ⟨z, hz, hkz⟩
          exact ⟨z, List.mem_cons_of_mem _ hz, hkz⟩

theorem find?_dedupByAux {α κ : Type} [DecidableEq κ] (key : α → κ) :
    ∀ (seen : List κ) (l : List α) (k : κ), k ∉ seen →
      (dedupByAux key seen l).find? (fun y => decide (key y = k)) =
        l.find? (fun y => decide (key y = k)) := by
  intro seen l
  induction l generalizing seen with
  | nil => intro k _; rfl
  | cons x xs ih =>
    intro k hk
    simp only [dedupByAux]
    by_cases hx : key x ∈ seen
    · rw [if_pos hx]
      have hne : ¬ (key x = k) := fun h => hk (h ▸ hx)
      rw [List.find?_cons_of_neg _ (by simpa using hne)]
      exact ih seen k hk
    · rw [if_neg hx]
      by_cases hek : key x = k
      · rw [List.find?_cons_of_pos _ (by simpa using hek),
            List.find?_cons_of_pos _ (by simpa using hek)]
      · rw [List.find?_cons_of_neg _ (by simpa using hek),
            List.find?_cons_of_neg _ (by simpa using hek)]
        exact ih (key x :: seen) k (by
          intro hc
          rcases List.mem_cons.mp hc with h1 | h2
          · exact hek h1.symm
          · exact hk h2)

theorem mem_of_mem_dropDuplicatesBy {α κ : Type} [DecidableEq κ] (key : α → κ)
    (l : List α) (y : α) (h : y ∈ dropDuplicatesBy key l) : y ∈ l :=
  mem_of_mem_dedupByAux key [] l y h

theorem keys_nodup_dropDuplicatesBy {α κ : Type} [DecidableEq κ] (key : α → κ)
    (l : List α) : ((dropDuplicatesBy key l).map key).Nodup :=
  keys_nodup_dedupByAux key [] l

theorem key_mem_dropDuplicatesBy_iff {α κ : Type} [DecidableEq κ] (key : α → κ)
    (l : List α) (k : κ) :
    k ∈ (dropDuplicatesBy key l).map key ↔ k ∈ l.map key := by
  constructor
  · intro h
    rcases List.mem_map.mp h with ⟨y, hy, hky⟩
    exact List.mem_map.mpr ⟨y, mem_of_mem_dropDuplicatesBy key l y hy, hky⟩
  · intro h
    rcases key_mem_dedupByAux_of_mem key [] l k h with hs | hd
    · exact absurd hs (List.not_mem_nil k)
    · exact hd

theorem find?_dropDuplicatesBy {α κ : Type} [DecidableEq κ] (key : α → κ)
    (l : List α) (k : κ) :
    (dropDuplicatesBy key l).find? (fun y => decide (key y = k)) =
      l.find? (fun y => decide (key y = k)) :=
  find?_dedupByAux key [] l k (List.not_mem_nil k)

/-! ### Surrogate-key assignment lemmas -/

theorem withIds_length (tz : Int) :
    ∀ (n : Nat) (l : List SongplayBase), (withIds tz n l).length = l.length := by
  intro n l
  induction l generalizing n with
  | nil => rfl
  | cons b bs ih => simp [withIds, ih]

theorem withIds_map_base (tz : Int) :
    ∀ (n : Nat) (l : List SongplayBase),
      (withIds tz n l).map (fun r => r.toSongplayBase) = l := by
  intro n l
  induction l generalizing n with
  | nil => rfl
  | cons b bs ih => simp [withIds, ih]

theorem withIds_map_id (tz : Int) :
    ∀ (n : Nat) (l : List SongplayBase),
      (withIds tz n l).map (fun r => r.songplay_id) = List.range' n l.length := by
  intro n l
  induction l generalizing n with
  | nil => rfl
  | cons b bs ih => simp [withIds, ih, List.range']

theorem withIds_get_id (tz : Int) :
    ∀ (n : Nat) (l : List SongplayBase) (i : Fin (withIds tz n l).length),
      ((withIds tz n l).get i).songplay_id = n + i.val := by
  intro n l
  induction l generalizing n with
  | nil => intro i; exact absurd i.isLt (by simp [withIds])
  | cons b bs ih =>
    intro i
    match i with
    | ⟨0, _⟩ => simp [withIds]
    | ⟨k + 1, hk⟩ =>
      have hk2 : k < (withIds tz (n + 1) bs).length := by
        have := hk
        simp only [withIds, List.length_cons] at this
        exact Nat.lt_of_succ_lt_succ this
      have := ih (n + 1) ⟨k, hk2⟩
      show ((withIds tz (n + 1) bs).get ⟨k, hk2⟩).songplay_id = n + (k + 1)
      rw [this]
      show n + 1 + k = n + (k + 1)
      omega

theorem withIds_get_start (tz : Int) :
    ∀ (n : Nat) (l : List SongplayBase) (i : Fin (withIds tz n l).length)
      (hi : i.val < l.length),
      ((withIds tz n l).get i).start_time = (l.get ⟨i.val, hi⟩).start_time := by
  intro n l
  induction l generalizing n with
  | nil => intro i; exact absurd i.isLt (by simp [withIds])
  | cons b bs ih =>
    intro i
    match i with
    | ⟨0, _⟩ => intro hi; simp [withIds]
    | ⟨k + 1, hk⟩ =>
      intro hi
      have hk2 : k < (withIds tz (n + 1) bs).length := by
        have := hk
        simp only [withIds, List.length_cons] at this
        exact Nat.lt_of_succ_lt_succ this
      exact ih (n + 1) ⟨k, hk2⟩ (Nat.lt_of_succ_lt_succ hi)

/-! ### Left-join lemmas -/

theorem leftJoinSongs_length_ge (catalog : List SongRecord) :
    ∀ l : List LogEvent, l.length ≤ (leftJoinSongs l catalog).length := by
  intro l
  induction l with
  | nil => simp [leftJoinSongs]
  | cons e es ih =>
    simp only [leftJoinSongs, List.flatMap_cons, List.length_append, List.length_cons]
    have h1 : 1 ≤ (if (catalog.filter (matchesSong e)).isEmpty then
        [(e, (none : Option SongRecord))]
        else (catalog.filter (matchesSong e)).map (fun r => (e, some r))).length := by
      by_cases hemp : (catalog.filter (matchesSong e)).isEmpty
      · simp [hemp]
      · rw [if_neg hemp, List.length_map]
        have : catalog.filter (matchesSong e) ≠ [] := by
          intro hc; rw [hc] at hemp; exact hemp rfl
        exact List.length_pos.mpr this
    have h2 := ih
    simp only [leftJoinSongs] at h2
    omega

theorem leftJoinSongs_length_eq (catalog : List SongRecord) :
    ∀ l : List LogEvent,
      (∀ e ∈ l, (catalog.filter (matchesSong e)).length ≤ 1) →
      (leftJoinSongs l catalog).length = l.length := by
  intro l
  induction l with
  | nil => intro _; rfl
  | cons e es ih =>
    intro h
    simp only [leftJoinSongs, List.flatMap_cons, List.length_append, List.length_cons]
    have h1 : (if (catalog.filter (matchesSong e)).isEmpty then
        [(e, (none : Option SongRecord))]
        else (catalog.filter (matchesSong e)).map (fun r => (e, some r))).length = 1 := by
      by_cases hemp : (catalog.filter (matchesSong e)).isEmpty
      · simp [hemp]
      · rw [if_neg hemp, List.length_map]
        have hne : catalog.filter (matchesSong e) ≠ [] := by
          intro hc; rw [hc] at hemp; exact hemp rfl
        have hge := List.length_pos.mpr hne
        have hle := h e (List.mem_cons_self e es)
        omega
    have h2 := ih (fun x hx => h x (List.mem_cons_of_mem e hx))
    simp only [leftJoinSongs] at h2
    omega

theorem mem_leftJoinSongs_matched (l : List LogEvent) (catalog : List SongRecord)
    (e : LogEvent) (r : SongRecord) (he : e ∈ l) (hr : r ∈ catalog)
    (hm : matchesSong e r = true) :
    (e, some r) ∈ leftJoinSongs l catalog := by
  refine List.mem_flatMap.mpr ⟨e, he, ?_⟩
  have hrm : r ∈ catalog.filter (matchesSong e) := List.mem_filter.mpr ⟨hr, hm⟩
  have hemp : (catalog.filter (matchesSong e)).isEmpty = false := by
    cases hc : catalog.filter (matchesSong e) with
    | nil => rw [hc] at hrm; exact absurd hrm (List.not_mem_nil r)
    | cons a as => rfl
  simp only [hemp, Bool.false_eq_true, if_false]
  exact List.mem_map.mpr ⟨r, hrm, rfl⟩

theorem mem_leftJoinSongs_unmatched (l : List LogEvent) (catalog : List SongRecord)
    (e : LogEvent) (he : e ∈ l) (hm : ∀ r ∈ catalog, matchesSong e r = false) :
    (e, (none : Option SongRecord)) ∈ leftJoinSongs l catalog := by
  refine List.mem_flatMap.mpr ⟨e, he, ?_⟩
  have hfil : catalog.filter (matchesSong e) = [] := by
    rw [List.filter_eq_nil_iff]
    intro r hr
    simp [hm r hr]
  simp [hfil]

/-! ### Songplays pipeline lemmas -/

theorem songplays_table_length (tz : Int) (events : List LogEvent)
    (catalog : List SongRecord) :
    (songplays_table tz events catalog).length =
      (leftJoinSongs (filterNextSong events) catalog).length := by
  unfold songplays_table
  rw [withIds_length,
      (List.perm_insertionSort spLE
        ((leftJoinSongs (filterNextSong events) catalog).map songplayBase)).length_eq,
      List.length_map]

theorem base_mem_songplays (tz : Int) (events : List LogEvent)
    (catalog : List SongRecord) (b : SongplayBase)
    (hb : b ∈ (leftJoinSongs (filterNextSong events) catalog).map songplayBase) :
    ∃ row ∈ songplays_table tz events catalog, row.toSongplayBase = b := by
  have hb2 : b ∈ List.insertionSort spLE
      ((leftJoinSongs (filterNextSong events) catalog).map songplayBase) :=
    (List.perm_insertionSort spLE _).mem_iff.mpr hb
  have hb3 : b ∈ (songplays_table tz events catalog).map (fun r => r.toSongplayBase) := by
    unfold songplays_table
    rw [withIds_map_base]
    exact hb2
  rcases List.mem_map.mp hb3 with ⟨row, hrow, hbase⟩
  exact ⟨row, hrow, hbase⟩

/-! ### Output-writer lemmas -/

/-- lastWrite ops p is the last write in `ops` whose path is `p`. -/
def lastWrite : List WriteOp → String → Option WriteOp
  | [], _ => none
  | w :: ws, p =>
    match lastWrite ws p with
    | some w2 => some w2
    | none => if p = w.path then some w else none

theorem applyWrites_eval (ops : List WriteOp)
    (how : ∀ w ∈ ops, w.mode = "overwrite") (s : Store) (p : String) :
    applyWrites s ops p =
      match lastWrite ops p with
      | some w => some w.table
      | none => s p := by
  induction ops generalizing s with
  | nil => rfl
  | cons w ws ih =>
    have hw : w.mode = "overwrite" := how w (List.mem_cons_self w ws)
    have hrest : ∀ w2 ∈ ws, w2.mode = "overwrite" :=
      fun w2 h2 => how w2 (List.mem_cons_of_mem w h2)
    show applyWrites (applyWrite s w) ws p = _
    rw [ih hrest]
    cases hlw : lastWrite ws p with
    | some w2 => simp [lastWrite, hlw]
    | none =>
      simp only [lastWrite, hlw, applyWrite, hw, if_pos rfl]
      by_cases hp : p = w.path
      · simp [hp]
      · simp [hp]

theorem etlWrites_mode (tz : Int) (o : String) (records : List SongRecord)
    (events : List LogEvent) :
    ∀ w ∈ etlWrites tz o records events, w.mode = "overwrite" := by
  intro w hw
  simp only [etlWrites, process_song_data, process_log_data, List.cons_append,
    List.nil_append, List.mem_cons, List.not_mem_nil, or_false] at hw
  rcases hw with rfl | rfl | rfl | rfl | rfl <;> rfl

theorem withIds_id_lt_of_start_lt (tz : Int) (n : Nat) (l : List SongplayBase)
    (hs : List.Sorted spLE l) (i j : Fin (withIds tz n l).length)
    (h : ((withIds tz n l).get i).start_time < ((withIds tz n l).get j).start_time) :
    ((withIds tz n l).get i).songplay_id < ((withIds tz n l).get j).songplay_id := by
  have hil : i.val < l.length := by rw [← withIds_length tz n l]; exact i.isLt
  have hjl : j.val < l.length := by rw [← withIds_length tz n l]; exact j.isLt
  rw [withIds_get_start tz n l i hil, withIds_get_start tz n l j hjl] at h
  rw [withIds_get_id tz n l i, withIds_get_id tz n l j]
  have hij : i.val < j.val := by
    rcases Nat.lt_trichotomy i.val j.val with hlt | heq | hgt
    · exact hlt
    · exfalso
      have hfin : (⟨i.val, hil⟩ : Fin l.length) = ⟨j.val, hjl⟩ := Fin.ext heq
      rw [hfin] at h
      exact lt_irrefl _ h
    · exfalso
      have hle : spLE (l.get ⟨j.val, hjl⟩) (l.get ⟨i.val, hil⟩) :=
        List.Sorted.rel_get_of_lt hs (Fin.mk_lt_mk.mpr hgt)
      exact absurd h (not_lt.mpr hle)
  omega

/-! ### Claim C1 -/

/-- C1 (counterexample): the claim says a user who appears only in events
with `page != "NextSong"` still has a row in the users table.  In the code
the line-95 filter runs before the users projection, so the user `u1` of a
lone `Home` event gets no row: `build_users` does NOT draw from the full,
unfiltered event collection. -/
theorem users_table_misses_non_nextsong_user :
    ceHomeEvent.userId = some "u1" ∧ users_table [ceHomeEvent] = [] := by decide

/-- C1 (amended): `build_users` emits exactly one row per distinct `user_id`
drawn from the events with `page == "NextSong"` only; a user whose only
events are non-NextSong actions has no row. -/
theorem users_table_one_row_per_nextsong_user (events : List LogEvent) :
    ((users_table events).map (fun row => row.user_id)).Nodup ∧
    ∀ u, u ∈ (users_table events).map (fun row => row.user_id) ↔
      u ∈ (filterNextSong events).map (fun e => e.userId) := by
  constructor
  · exact keys_nodup_dropDuplicatesBy _ _
  · intro u
    rw [users_table, key_mem_dropDuplicatesBy_iff, List.map_map]
    exact Iff.rfl

/-! ### Claim C2 -/

/-- C2 (counterexample): the claim says no NextSong event yields more than one
songplays row regardless of how many catalog records match it.  With one
NextSong event and a catalog holding two records that both match it, the left
join yields two fact rows. -/
theorem songplays_duplicates_event_on_double_match :
    (filterNextSong [ceEvent]).length = 1 ∧
    (songplays_table 0 [ceEvent] [ceRec1, ceRec2]).length = 2 := by decide

/-- C2 (amended): no NextSong event is dropped (at least one fact row per
event), and when every NextSong event matches at most one catalog record the
fact builder produces exactly one songplays row per NextSong event; an event
matched by k > 1 catalog records yields k rows. -/
theorem songplays_one_row_per_event (tz : Int) (events : List LogEvent)
    (catalog : List SongRecord) :
    (filterNextSong events).length ≤ (songplays_table tz events catalog).length ∧
    ((∀ e ∈ filterNextSong events, (catalog.filter (matchesSong e)).length ≤ 1) →
      (songplays_table tz events catalog).length = (filterNextSong events).length) := by
  constructor
  · rw [songplays_table_length]
    exact leftJoinSongs_length_ge catalog _
  · intro h
    rw [songplays_table_length]
    exact leftJoinSongs_length_eq catalog _ h

/-- C2 witness: with the single matching catalog record `ceRec1`, one NextSong
event produces exactly one fact row. -/
theorem songplays_one_row_per_event_witness :
    (songplays_table 0 [ceEvent] [ceRec1]).length = (filterNextSong [ceEvent]).length :=
  (songplays_one_row_per_event 0 [ceEvent] [ceRec1]).2 (by decide)

/-! ### Claim C3 -/

/-- C3: over the N songplays rows, `songplay_id` in row order is exactly the
sequence 1..N (dense, no gaps), and a row with strictly smaller `start_time`
has a strictly smaller `songplay_id`. -/
theorem songplay_id_dense_and_time_ordered (tz : Int) (events : List LogEvent)
    (catalog : List SongRecord) :
    (songplays_table tz events catalog).map (fun row => row.songplay_id) =
      List.range' 1 (songplays_table tz events catalog).length ∧
    ∀ i j : Fin (songplays_table tz events catalog).length,
      ((songplays_table tz events catalog).get i).start_time <
        ((songplays_table tz events catalog).get j).start_time →
      ((songplays_table tz events catalog).get i).songplay_id <
        ((songplays_table tz events catalog).get j).songplay_id := by
  constructor
  · show (withIds tz 1 _).map _ = _
    rw [withIds_map_id, songplays_table_length,
        (List.perm_insertionSort spLE
          ((leftJoinSongs (filterNextSong events) catalog).map songplayBase)).length_eq,
        List.length_map]
  · intro i j hst
    exact withIds_id_lt_of_start_lt tz 1 _ (List.sorted_insertionSort spLE _) i j hst

/-- C3 witness: on two NextSong events with increasing timestamps, the row
with the earlier `start_time` gets the smaller `songplay_id`. -/
theorem songplay_id_dense_and_time_ordered_witness :
    ((songplays_table 0 [ceEvent, ceEventB] []).get ⟨0, by decide⟩).songplay_id <
    ((songplays_table 0 [ceEvent, ceEventB] []).get ⟨1, by decide⟩).songplay_id :=
  (songplay_id_dense_and_time_ordered 0 [ceEvent, ceEventB] []).2
    ⟨0, by decide⟩ ⟨1, by decide⟩ (by decide)

/-! ### Claim C4 -/

/-- C4: the fact join is a left outer join on exact string equality of
(log.song, log.artist) against (catalog.title, catalog.artist_name): a
matching NextSong event yields a fact row carrying the matched record's
`song_id`/`artist_id`, and an unmatched NextSong event yields a fact row with
both null that is still present in the output. -/
theorem songplays_left_join_semantics (tz : Int) (events : List LogEvent)
    (catalog : List SongRecord) :
    (∀ e ∈ filterNextSong events, ∀ r ∈ catalog, matchesSong e r = true →
      ∃ row ∈ songplays_table tz events catalog,
        row.song_id = r.song_id ∧ row.artist_id = r.artist_id ∧
        row.start_time = get_timestamp e.ts ∧ row.user_id = e.userId ∧
        row.session_id = e.sessionId) ∧
    (∀ e ∈ filterNextSong events, (∀ r ∈ catalog, matchesSong e r = false) →
      ∃ row ∈ songplays_table tz events catalog,
        row.song_id = none ∧ row.artist_id = none ∧
        row.start_time = get_timestamp e.ts ∧ row.user_id = e.userId ∧
        row.session_id = e.sessionId) := by
  constructor
  · intro e he r hr hm
    have hmem := mem_leftJoinSongs_matched _ catalog e r he hr hm
    have hb : songplayBase (e, some r) ∈
        (leftJoinSongs (filterNextSong events) catalog).map songplayBase :=
      List.mem_map.mpr ⟨(e, some r), hmem, rfl⟩
    rcases base_mem_songplays tz events catalog _ hb with ⟨row, hrow, hbase⟩
    refine ⟨row, hrow, ?_, ?_, ?_, ?_, ?_⟩ <;> rw [hbase] <;> rfl
  · intro e he hnone
    have hmem := mem_leftJoinSongs_unmatched _ catalog e he hnone
    have hb : songplayBase (e, none) ∈
        (leftJoinSongs (filterNextSong events) catalog).map songplayBase :=
      List.mem_map.mpr ⟨(e, none), hmem, rfl⟩
    rcases base_mem_songplays tz events catalog _ hb with ⟨row, hrow, hbase⟩
    refine ⟨row, hrow, ?_, ?_, ?_, ?_, ?_⟩ <;> rw [hbase] <;> rfl

/-- C4 witness: the §8 example — event (song="Test Song", artist="Test
Artist") joined against a catalog holding that exact (title, artist_name)
pair yields a fact row with song_id=S1, artist_id=A1. -/
theorem songplays_left_join_semantics_witness :
    ∃ row ∈ songplays_table 0 [ceEvent] [ceRec1],
      row.song_id = ceRec1.song_id ∧ row.artist_id = ceRec1.artist_id ∧
      row.start_time = get_timestamp ceEvent.ts ∧ row.user_id = ceEvent.userId ∧
      row.session_id = ceEvent.sessionId :=
  (songplays_left_join_semantics 0 [ceEvent] [ceRec1]).1 ceEvent (by decide)
    ceRec1 (by decide) (by decide)

/-! ### Claim C5 -/

/-- C5: after deduplication every dimension table has a globally unique
primary key (`song_id`, `artist_id`, `user_id`); each surviving row is a
whole input row (no merging of conflicting attribute values), and for any key
the surviving row is the first-seen input row with that key. -/
theorem dimension_tables_unique_keys_first_seen (records : List SongRecord)
    (events : List LogEvent) :
    (((songs_table records).map (fun row => row.song_id)).Nodup ∧
      (∀ row ∈ songs_table records, row ∈ records.map songRowOf) ∧
      ∀ k, (songs_table records).find? (fun row => decide (row.song_id = k)) =
        (records.map songRowOf).find? (fun row => decide (row.song_id = k))) ∧
    (((artists_table records).map (fun row => row.artist_id)).Nodup ∧
      (∀ row ∈ artists_table records, row ∈ records.map artistRowOf) ∧
      ∀ k, (artists_table records).find? (fun row => decide (row.artist_id = k)) =
        (records.map artistRowOf).find? (fun row => decide (row.artist_id = k))) ∧
    (((users_table events).map (fun row => row.user_id)).Nodup ∧
      (∀ row ∈ users_table events, row ∈ (filterNextSong events).map userRowOf) ∧
      ∀ k, (users_table events).find? (fun row => decide (row.user_id = k)) =
        ((filterNextSong events).map userRowOf).find?
          (fun row => decide (row.user_id = k))) := by
  refine ⟨⟨?_, ?_, ?_⟩, ⟨?_, ?_, ?_⟩, ?_, ?_, ?_⟩
  · exact keys_nodup_dropDuplicatesBy _ _
  · exact fun row h => mem_of_mem_dropDuplicatesBy _ _ row h
  · exact fun k => find?_dropDuplicatesBy _ _ k
  · exact keys_nodup_dropDuplicatesBy _ _
  · exact fun row h => mem_of_mem_dropDuplicatesBy _ _ row h
  · exact fun k => find?_dropDuplicatesBy _ _ k
  · exact keys_nodup_dropDuplicatesBy _ _
  · exact fun row h => mem_of_mem_dropDuplicatesBy _ _ row h
  · exact fun k => find?_dropDuplicatesBy _ _ k

/-- C5 witness: with two catalog records sharing `song_id = "S1"`, the row
the songs table keeps is a whole input row. -/
theorem dimension_tables_unique_keys_first_seen_witness :
    songRowOf ceRec1 ∈ [ceRec1, ceDupRec].map songRowOf :=
  ((dimension_tables_unique_keys_first_seen [ceRec1, ceDupRec] []).1.2.1)
    (songRowOf ceRec1) (by decide)

/-! ### Claim C6 -/

/-- C6: `build_time` filters to `page == "NextSong"` first, derives
`start_time` from `ts`, computes hour, day, week-of-year, month, year and
weekday as (timezone-indexed) calendar functions of `start_time`, and
deduplicates by `start_time`, so the time table has exactly one row per
distinct `start_time` among NextSong events. -/
theorem time_table_nextsong_fields_dedup (tz : Int) (events : List LogEvent) :
    ((time_table tz events).map (fun row => row.start_time)).Nodup ∧
    (∀ t, t ∈ (time_table tz events).map (fun row => row.start_time) ↔
      t ∈ (filterNextSong events).map (fun e => get_timestamp e.ts)) ∧
    ∀ row ∈ time_table tz events,
      row.start_time = get_timestamp row.ts ∧
      row.hour = hourOf tz row.start_time ∧
      row.day = dayOf tz row.start_time ∧
      row.week = weekOf tz row.start_time ∧
      row.month = monthOf tz row.start_time ∧
      row.year = yearOf tz row.start_time ∧
      row.weekday = dayofweekOf tz row.start_time := by
  refine ⟨keys_nodup_dropDuplicatesBy _ _, ?_, ?_⟩
  · intro t
    rw [time_table, key_mem_dropDuplicatesBy_iff, List.map_map]
    exact Iff.rfl
  · intro row hrow
    have hmem : row ∈ (filterNextSong events).map (timeRowOf tz) :=
      mem_of_mem_dropDuplicatesBy _ _ row hrow
    rcases List.mem_map.mp hmem with ⟨e, _, hre⟩
    subst hre
    exact ⟨rfl, rfl, rfl, rfl, rfl, rfl, rfl⟩

/-- C6 witness: the row derived from `ceEvent` at UTC carries the calendar
decomposition of its own `start_time`. -/
theorem time_table_nextsong_fields_dedup_witness :
    ceTimeRow.start_time = get_timestamp ceTimeRow.ts ∧
    ceTimeRow.hour = hourOf 0 ceTimeRow.start_time ∧
    ceTimeRow.day = dayOf 0 ceTimeRow.start_time ∧
    ceTimeRow.week = weekOf 0 ceTimeRow.start_time ∧
    ceTimeRow.month = monthOf 0 ceTimeRow.start_time ∧
    ceTimeRow.year = yearOf 0 ceTimeRow.start_time ∧
    ceTimeRow.weekday = dayofweekOf 0 ceTimeRow.start_time :=
  (time_table_nextsong_fields_dedup 0 [ceEvent]).2.2 ceTimeRow (by decide)

/-! ### Claim C7 -/

/-- C7 (counterexample): the claim says the derived timestamp's year, month,
day and hour equal the UTC calendar values for the epoch-millisecond instant
`ts = 1541106106796`.  `datetime.fromtimestamp` (and Spark's field
extractors) render the instant in the process-local/session timezone: at
offset +60 minutes the derived hour is 22, not the UTC value 21. -/
theorem derived_hour_differs_from_utc_in_nonutc_tz :
    hourOf 60 (get_timestamp 1541106106796) = 22 ∧
    hourOf 60 (get_timestamp 1541106106796) ≠ 21 := by decide

/-- C7 (amended): `derive_timestamp` converts integer epoch millis to the
timestamp at epoch second `ts / 1000.0` (the identity on the epoch-millis
representation), and when the ambient timezone is UTC (offset 0) the derived
fields for `ts = 1541106106796` are the UTC calendar values 2018-11-01,
hour 21; under a non-UTC ambient timezone they are that timezone's values
instead. -/
theorem timestamp_fields_utc_when_tz_zero :
    (∀ x : Int, get_timestamp x = x) ∧
    yearOf 0 (get_timestamp 1541106106796) = 2018 ∧
    monthOf 0 (get_timestamp 1541106106796) = 11 ∧
    dayOf 0 (get_timestamp 1541106106796) = 1 ∧
    hourOf 0 (get_timestamp 1541106106796) = 21 := by
  refine ⟨fun x => rfl, ?_, ?_, ?_, ?_⟩ <;> decide

/-! ### Claim C8 -/

/-- C8: every table write is in full-overwrite mode — the resulting dataset
at the written path is exactly the table written, whatever the pre-existing
store held — and the partition columns are exactly (year, artist_id) for
songs, (year, month) for time and songplays, and none for users and
artists. -/
theorem writes_overwrite_and_partitions (tz : Int) (o : String)
    (records : List SongRecord) (events : List LogEvent) :
    ((etlWrites tz o records events).map
        (fun w => (w.path, w.partitionColumns, w.mode)) =
      [(o ++ "songs.parquet", ["year", "artist_id"], "overwrite"),
       (o ++ "artists.parquet", [], "overwrite"),
       (o ++ "users.parquet", [], "overwrite"),
       (o ++ "time.parquet", ["year", "month"], "overwrite"),
       (o ++ "songplays.parquet", ["year", "month"], "overwrite")]) ∧
    ∀ (s : Store) (w : WriteOp), w ∈ etlWrites tz o records events →
      applyWrite s w w.path = some w.table := by
  constructor
  · rfl
  · intro s w hw
    have hmode := etlWrites_mode tz o records events w hw
    simp [applyWrite, hmode]

/-- C8 witness: the songs write of an empty run replaces whatever is at its
path (here: an empty store) with exactly the songs table. -/
theorem writes_overwrite_and_partitions_witness :
    applyWrite (fun _ => none) ceWriteOp ceWriteOp.path = some ceWriteOp.table :=
  (writes_overwrite_and_partitions 0 "" [] []).2 (fun _ => none) ceWriteOp (by decide)

/-! ### Claim C9 -/

/-- C9: running both pipelines twice against unchanged input and the same
destination yields exactly the same final store as running them once: the
transform is deterministic in this embedding (ties on equal `start_time` are
broken the same way) and every write is a full overwrite. -/
theorem etl_idempotent (tz : Int) (o : String) (records : List SongRecord)
    (events : List LogEvent) (s : Store) :
    run_etl tz o records events (run_etl tz o records events s) =
      run_etl tz o records events s := by
  funext p
  have how := etlWrites_mode tz o records events
  show applyWrites (run_etl tz o records events s) (etlWrites tz o records events) p =
    applyWrites s (etlWrites tz o records events) p
  rw [applyWrites_eval _ how, applyWrites_eval _ how]
  cases hlw : lastWrite (etlWrites tz o records events) p with
  | some w => rfl
  | none =>
    show applyWrites s (etlWrites tz o records events) p = s p
    rw [applyWrites_eval _ how, hlw]

/-! ### Claim C10 -/

/-- C10: the written time table carries, besides the specified attributes,
the extra columns `ts`, `datetime` and `timestamp`; `datetime` is assigned
with the timestamp-valued converter `get_timestamp` (line 118; the
date-valued `get_datetime` is defined but never applied), so `datetime`
equals `timestamp` on every row. -/
theorem time_table_datetime_equals_timestamp (tz : Int) (events : List LogEvent) :
    ∀ row ∈ time_table tz events,
      row.datetime = get_timestamp row.ts ∧
      row.timestamp = get_timestamp row.ts ∧
      row.datetime = row.timestamp := by
  intro row hrow
  rcases List.mem_map.mp (mem_of_mem_dropDuplicatesBy _ _ row hrow) with ⟨e, _, hre⟩
  subst hre
  exact ⟨rfl, rfl, rfl⟩

/-- C10 witness: the time row of `ceEvent` has `datetime = timestamp`, both
the raw `ts` instant. -/
theorem time_table_datetime_equals_timestamp_witness :
    ceTimeRow.datetime = get_timestamp ceTimeRow.ts ∧
    ceTimeRow.timestamp = get_timestamp ceTimeRow.ts ∧
    ceTimeRow.datetime = ceTimeRow.timestamp :=
  time_table_datetime_equals_timestamp 0 [ceEvent] ceTimeRow (by decide)

end Sparkify
